import Mathlib

/-!
# Verification of the RepoFlow metrics engine and cache (backend/src)

Shallow embedding of `backend/src/metrics.rs` (rolling-window PR flow
metrics) and `backend/src/cache.rs` / `backend/src/querier.rs` (TTL cache,
eviction listener, refresh worker), with theorems checking the spec's
claims about them.

Conventions of the embedding:
* `chrono::NaiveDate` is represented by its day number (days since
  1970-01-01, proleptic Gregorian, unbounded ℤ).  `chrono` date arithmetic
  (`date - Duration::days(i)`, `d2 - d1`) is exact day-number arithmetic.
* `DateTime<Utc>` is an `Instant`: a day number plus a second-of-day.
  `date_naive()` is the day number; subtracting whole days keeps the
  second-of-day (UTC has no leap seconds in chrono).
* Rust `usize` counters are `ℕ` (unbounded; the code never relies on
  wrapping), `i64` is `ℤ`.
* `f64` percentage arithmetic in `calculate_summary` is modelled by exact
  rational arithmetic; `f64::round` (ties away from zero) agrees with
  Mathlib's `round` (ties up) on the non-negative values that occur.
* `Utc.with_ymd_and_hms` is modelled by an `Option`-returning constructor
  that succeeds exactly on valid Gregorian dates and in-range times, as
  chrono does (chrono's ±262143 year representation bound is outside the
  model, where day numbers are unbounded).
-/

/-! ## Gregorian calendar arithmetic (model of chrono date internals) -/

/-- Proleptic Gregorian leap-year test (as chrono implements it). -/
def isLeapYear (y : ℤ) : Bool := y % 4 == 0 && (y % 100 != 0 || y % 400 == 0)

/-- Number of days in month `m` of year `y`. -/
def daysInMonth (y m : ℤ) : ℤ :=
  if m = 2 then (if isLeapYear y then 29 else 28)
  else if m = 4 ∨ m = 6 ∨ m = 9 ∨ m = 11 then 30
  else 31

/-- A calendar date `y-m-d` is valid (chrono's `from_ymd_opt` success test). -/
def isValidDate (y m d : ℤ) : Prop :=
  1 ≤ m ∧ m ≤ 12 ∧ 1 ≤ d ∧ d ≤ daysInMonth y m

instance (y m d : ℤ) : Decidable (isValidDate y m d) := by
  unfold isValidDate; infer_instance

/-- Day number → `(year, month, day)`, Howard Hinnant's `civil_from_days`
algorithm (the standard proleptic-Gregorian conversion, as used by date
libraries such as chrono).  Day 0 is 1970-01-01. -/
def civilFromDays (z : ℤ) : ℤ × ℤ × ℤ :=
  let z2 := z + 719468
  let era := z2 / 146097
  let doe := z2 - era * 146097
  let yoe := (doe - doe / 1460 + doe / 36524 - doe / 146096) / 365
  let y := yoe + era * 400
  let doy := doe - (365 * yoe + yoe / 4 - yoe / 100)
  let mp := (5 * doy + 2) / 153
  let d := doy - (153 * mp + 2) / 5 + 1
  let m := if mp < 10 then mp + 3 else mp - 9
  (if m ≤ 2 then y + 1 else y, m, d)

/-- `(year, month, day)` → day number, Hinnant's `days_from_civil`.
Inverse of `civilFromDays`; used to build concrete test inputs. -/
def daysFromCivil (y m d : ℤ) : ℤ :=
  let y2 := if m ≤ 2 then y - 1 else y
  let era := y2 / 400
  let yoe := y2 - era * 400
  let doy := (153 * (if 2 < m then m - 3 else m + 9) + 2) / 5 + d - 1
  let doe := yoe * 365 + yoe / 4 - yoe / 100 + doy
  era * 146097 + doe - 719468

/-- Year-of-era extraction step of `civilFromDays`, on its own. -/
def yoeOf (doe : ℤ) : ℤ := (doe - doe / 1460 + doe / 36524 - doe / 146096) / 365

/-- Days before (March-shifted) year `Y` of an era, `0 ≤ Y ≤ 400`. -/
def dby (Y : ℤ) : ℤ := 365 * Y + Y / 4 - Y / 100 + Y / 400

/-- Bounded-range checker: `checkRange p fuel lo len = true` certifies
`p i = true` for all `lo ≤ i < lo + len`, by balanced splitting so the
kernel can evaluate it. -/
def checkRange (p : ℕ → Bool) : ℕ → ℕ → ℕ → Bool
  | 0, _, _ => false
  | fuel + 1, lo, len =>
    if len = 0 then true
    else if len = 1 then p lo
    else
      let h := len / 2
      checkRange p fuel lo h && checkRange p fuel (lo + h) (len - h)

theorem checkRange_sound (p : ℕ → Bool) : ∀ fuel lo len, checkRange p fuel lo len = true →
    ∀ i, lo ≤ i → i < lo + len → p i = true := by
  intro fuel
  induction fuel with
  | zero => intro lo len h; simp [checkRange] at h
  | succ k ih =>
    intro lo len h i hlo hhi
    rw [checkRange] at h
    by_cases h0 : len = 0
    · omega
    · by_cases h1 : len = 1
      · simp [h0, h1] at h
        have hi : i = lo := by omega
        rwa [hi]
      · simp [h0, h1, Bool.and_eq_true] at h
        by_cases hc : i < lo + len / 2
        · exact ih lo (len / 2) h.1 i hlo hc
        · exact ih (lo + len / 2) (len - len / 2) h.2 i (by omega) (by omega)

/-- Per-year boundary check: the year-of-era extraction is correct at the
first and last day of year `Y` of the era. -/
def yearCheck (Y : ℕ) : Bool :=
  decide (yoeOf (dby (Y : ℤ)) = (Y : ℤ)) &&
  decide (yoeOf (dby ((Y : ℤ) + 1) - 1) = (Y : ℤ))

/-- Per-day-of-year check: the month/day extraction from `dz` is a valid
month and day; February gets day 29 only at `dz = 365`. -/
def doyCheckZ (dz : ℤ) : Bool :=
  decide ((153 * ((5 * dz + 2) / 153) + 2) / 5 ≤ dz) &&
  decide (1 ≤ (if (5 * dz + 2) / 153 < 10 then (5 * dz + 2) / 153 + 3
               else (5 * dz + 2) / 153 - 9)) &&
  decide ((if (5 * dz + 2) / 153 < 10 then (5 * dz + 2) / 153 + 3
           else (5 * dz + 2) / 153 - 9) ≤ 12) &&
  decide (1 ≤ dz - (153 * ((5 * dz + 2) / 153) + 2) / 5 + 1) &&
  decide (dz - (153 * ((5 * dz + 2) / 153) + 2) / 5 + 1 ≤
    (if (if (5 * dz + 2) / 153 < 10 then (5 * dz + 2) / 153 + 3
         else (5 * dz + 2) / 153 - 9) = 2 then (if dz = 365 then 29 else 28)
     else if (if (5 * dz + 2) / 153 < 10 then (5 * dz + 2) / 153 + 3
              else (5 * dz + 2) / 153 - 9) = 4 ∨
             (if (5 * dz + 2) / 153 < 10 then (5 * dz + 2) / 153 + 3
              else (5 * dz + 2) / 153 - 9) = 6 ∨
             (if (5 * dz + 2) / 153 < 10 then (5 * dz + 2) / 153 + 3
              else (5 * dz + 2) / 153 - 9) = 9 ∨
             (if (5 * dz + 2) / 153 < 10 then (5 * dz + 2) / 153 + 3
              else (5 * dz + 2) / 153 - 9) = 11 then 30 else 31))

set_option maxRecDepth 4000 in
theorem allYears : checkRange yearCheck 16 0 400 = true := by rfl

set_option maxRecDepth 4000 in
theorem allDoys : checkRange (fun k => doyCheckZ (k : ℤ)) 16 0 366 = true := by rfl

theorem yoeOf_mono {a b : ℤ} (h : a ≤ b) : yoeOf a ≤ yoeOf b := by
  unfold yoeOf
  have h1 : a / 36524 ≤ b / 36524 := Int.ediv_le_ediv (by norm_num) h
  have h2 : a / 1460 ≤ b / 1460 := Int.ediv_le_ediv (by norm_num) h
  have h3 : a / 146096 ≤ b / 146096 := Int.ediv_le_ediv (by norm_num) h
  exact Int.ediv_le_ediv (by norm_num) (by omega)

theorem dby_step (Y : ℤ) (h0 : 0 ≤ Y) (h1 : Y ≤ 399) :
    365 ≤ dby (Y + 1) - dby Y ∧ dby (Y + 1) - dby Y ≤ 366 ∧
    (dby (Y + 1) - dby Y = 366 ↔
      (Y + 1) % 4 = 0 ∧ ((Y + 1) % 100 ≠ 0 ∨ (Y + 1) % 400 = 0)) := by
  unfold dby
  omega

/-- Coverage: every day-of-era lies in some year `Y ≤ 399` of the era. -/
theorem doe_coverage (doe : ℤ) (h0 : 0 ≤ doe) (h1 : doe ≤ 146096) :
    ∃ Y : ℕ, Y ≤ 399 ∧ dby (Y : ℤ) ≤ doe ∧ doe < dby ((Y : ℤ) + 1) := by
  have hP0 : (fun Yk : ℕ => dby (Yk : ℤ) ≤ doe) 0 := by
    show dby ((0 : ℕ) : ℤ) ≤ doe
    unfold dby
    push_cast
    omega
  have hle : Nat.findGreatest (fun Yk : ℕ => dby (Yk : ℤ) ≤ doe) 399 ≤ 399 :=
    Nat.findGreatest_le 399
  have hsp := @Nat.findGreatest_spec 0 (fun Yk : ℕ => dby (Yk : ℤ) ≤ doe)
    (fun _ => inferInstance) 399 (Nat.zero_le 399) hP0
  have hsp2 : dby ((Nat.findGreatest (fun Yk : ℕ => dby (Yk : ℤ) ≤ doe) 399 : ℕ) : ℤ) ≤ doe := hsp
  refine ⟨_, hle, hsp2, ?_⟩
  by_cases htop : Nat.findGreatest (fun Yk : ℕ => dby (Yk : ℤ) ≤ doe) 399 = 399
  · rw [htop]
    have h400 : dby (((399 : ℕ) : ℤ) + 1) = 146097 := by unfold dby; norm_num
    omega
  · have hlt2 : Nat.findGreatest (fun Yk : ℕ => dby (Yk : ℤ) ≤ doe) 399 <
        Nat.findGreatest (fun Yk : ℕ => dby (Yk : ℤ) ≤ doe) 399 + 1 := Nat.lt_succ_self _
    have hng := Nat.findGreatest_is_greatest hlt2 (by omega)
    have hng2 : ¬ dby ((Nat.findGreatest (fun Yk : ℕ => dby (Yk : ℤ) ≤ doe) 399 + 1 : ℕ) : ℤ) ≤ doe := hng
    push_cast at hng2
    omega

/-- Correctness of the year-of-era extraction, from the two per-year
boundary checks and monotonicity. -/
theorem yoeOf_correct (doe : ℤ) (Y : ℕ) (hY : Y ≤ 399)
    (hlo : dby (Y : ℤ) ≤ doe) (hhi : doe < dby ((Y : ℤ) + 1)) :
    yoeOf doe = (Y : ℤ) := by
  have hc := checkRange_sound yearCheck 16 0 400 allYears Y (Nat.zero_le Y) (by omega)
  simp only [yearCheck, Bool.and_eq_true, decide_eq_true_eq] at hc
  have hmono1 := yoeOf_mono hlo
  have hmono2 := yoeOf_mono (by omega : doe ≤ dby ((Y : ℤ) + 1) - 1)
  omega

/-- Validity of the month/day extraction, with every intermediate of the
`civilFromDays` computation held abstract. -/
theorem extraction_valid (z2 era doe yoe doy mp off m d : ℤ)
    (hera : era = z2 / 146097) (hdoe : doe = z2 - era * 146097)
    (hyoe : yoe = (doe - doe / 1460 + doe / 36524 - doe / 146096) / 365)
    (hdoy : doy = doe - (365 * yoe + yoe / 4 - yoe / 100))
    (hmp : mp = (5 * doy + 2) / 153) (hoff : off = (153 * mp + 2) / 5)
    (hm : m = if mp < 10 then mp + 3 else mp - 9) (hd : d = doy - off + 1) :
    isValidDate (if m ≤ 2 then yoe + era * 400 + 1 else yoe + era * 400) m d := by
  have hdoe0 : 0 ≤ doe := by omega
  have hdoe1 : doe ≤ 146096 := by omega
  obtain ⟨Y, hY, hlo, hhi⟩ := doe_coverage doe hdoe0 hdoe1
  have hyoeY : yoe = (Y : ℤ) := by
    have h2 := yoeOf_correct doe Y hY hlo hhi
    unfold yoeOf at h2
    omega
  subst hyoeY
  clear hyoe
  have hYb : (0 : ℤ) ≤ (Y : ℤ) ∧ (Y : ℤ) ≤ 399 := by
    constructor
    · exact_mod_cast Nat.zero_le Y
    · exact_mod_cast hY
  have hstep := dby_step (Y : ℤ) hYb.1 hYb.2
  have hdbyY : dby (Y : ℤ) = 365 * (Y : ℤ) + (Y : ℤ) / 4 - (Y : ℤ) / 100 := by
    unfold dby; omega
  have hdoy0 : 0 ≤ doy := by
    clear hmp hoff hm hd hera hdoe
    omega
  have hdoy1 : doy ≤ 365 := by
    clear hmp hoff hm hd hera hdoe
    omega
  have hleap : doy = 365 →
      ((Y : ℤ) + 1) % 4 = 0 ∧ (((Y : ℤ) + 1) % 100 ≠ 0 ∨ ((Y : ℤ) + 1) % 400 = 0) := by
    intro h365
    refine (hstep.2.2).mp ?_
    clear hmp hoff hm hd hera hdoe
    omega
  have hF := checkRange_sound (fun k => doyCheckZ (k : ℤ)) 16 0 366 allDoys doy.toNat
    (Nat.zero_le _) (by omega)
  have hFc : doyCheckZ doy = true := by
    have hcast : ((doy.toNat : ℤ)) = doy := Int.toNat_of_nonneg hdoy0
    rw [← hcast]
    exact hF
  simp only [doyCheckZ, Bool.and_eq_true, decide_eq_true_eq] at hFc
  simp only [← hmp] at hFc
  simp only [← hoff] at hFc
  simp only [← hm] at hFc
  simp only [← hd] at hFc
  obtain ⟨⟨⟨⟨hoffF, hm1⟩, hm12⟩, hd1⟩, hdlast⟩ := hFc
  unfold isValidDate
  refine ⟨hm1, hm12, hd1, ?_⟩
  by_cases hm2 : m = 2
  · rw [hm2] at hdlast ⊢
    unfold daysInMonth
    rw [if_pos rfl] at hdlast ⊢
    by_cases h365 : doy = 365
    · obtain ⟨e4, e100_400⟩ := hleap h365
      have hlpy : isLeapYear (if (2 : ℤ) ≤ 2 then (Y : ℤ) + era * 400 + 1
          else (Y : ℤ) + era * 400) = true := by
        rw [if_pos (by norm_num : (2 : ℤ) ≤ 2)]
        simp only [isLeapYear, Bool.and_eq_true, beq_iff_eq, Bool.or_eq_true, bne_iff_ne,
          ne_eq]
        constructor
        · omega
        · rcases e100_400 with h | h
          · left; omega
          · right; omega
      rw [hlpy]
      rw [if_pos h365] at hdlast
      simpa using hdlast
    · rw [if_neg h365] at hdlast
      split
      · omega
      · omega
  · unfold daysInMonth
    rw [if_neg hm2] at hdlast ⊢
    exact hdlast

/-- The main date-validity theorem: `civilFromDays` always yields a valid
Gregorian date (so chrono's ymd-based constructors accept it). -/
theorem civilFromDays_valid (z : ℤ) :
    isValidDate (civilFromDays z).1 (civilFromDays z).2.1 (civilFromDays z).2.2 := by
  exact extraction_valid (z + 719468) ((z + 719468) / 146097) _ _ _ _ _ _ _
    rfl rfl rfl rfl rfl rfl rfl rfl

/-! ## String formatting (model of chrono's `%Y-%m-%d`) -/

/-- Zero-pad a digit string on the left to width `w`. -/
def padZeroes (w : ℕ) (s : String) : String :=
  (List.replicate (w - s.length) '0').asString ++ s

/-- Format one date component, zero-padded to width `w` (sign first). -/
def fmtComp (w : ℕ) (n : ℤ) : String :=
  if n < 0 then "-" ++ padZeroes w (toString (-n).toNat)
  else padZeroes w (toString n.toNat)

/-- `%Y-%m-%d` of a `(year, month, day)` triple. -/
def formatYMD (y m d : ℤ) : String :=
  fmtComp 4 y ++ "-" ++ fmtComp 2 m ++ "-" ++ fmtComp 2 d

/-! ## Data model (`github.rs` / `metrics.rs`) -/

/-- A `chrono::DateTime<Utc>`: day number plus second-of-day.
`date_naive()` is `day`; subtracting `Duration::days(i)` gives
`⟨day - i, sec⟩`. -/
structure Instant where
  day : ℤ
  sec : ℕ
deriving DecidableEq

/-- `PRState` from `github.rs`. -/
inductive PRState
  | Open
  | Closed
  | Merged
  | Unknown
deriving DecidableEq

/-- `GitHubPR` from `github.rs`. -/
structure GitHubPR where
  id : ℕ
  created_at : Instant
  merged_at : Option Instant
  state : PRState
deriving DecidableEq

/-- `FlowMetricsResponse` from `metrics.rs`: one time-series point. -/
structure FlowMetricsResponse where
  date : String
  opened : ℕ
  merged : ℕ
  spread : ℤ
deriving DecidableEq, Inhabited

/-- `SummaryMetrics` from `metrics.rs`. -/
structure SummaryMetrics where
  current_opened : ℕ
  current_merged : ℕ
  current_spread : ℤ
  merge_rate : ℕ
  is_widening : Bool
deriving DecidableEq, Inhabited

/-- `RepoMetricsResponse` from `metrics.rs`. -/
structure RepoMetricsResponse where
  summary : SummaryMetrics
  time_series : List FlowMetricsResponse
deriving DecidableEq

/-! ## Timelines (`metrics.rs`) -/

/-- `Timeline`: daily event counts over `[start_date, end_date]`. -/
structure Timeline where
  start_date : ℤ
  end_date : ℤ
  counts : List ℕ

/-- `Timeline::new`. -/
def Timeline.new (start_date end_date : ℤ) : Timeline :=
  let days := end_date - start_date
  let size := if 0 ≤ days then (days + 1).toNat else 0
  ⟨start_date, end_date, List.replicate size 0⟩

/-- `Timeline::increment`: bump the bucket of `date` if it is in range
(the inner bounds check mirrors the source's `idx < self.counts.len()`). -/
def Timeline.increment (t : Timeline) (date : ℤ) : Timeline :=
  if t.start_date ≤ date ∧ date ≤ t.end_date then
    let idx := (date - t.start_date).toNat
    if idx < t.counts.length then
      { t with counts := t.counts.set idx (t.counts.getD idx 0 + 1) }
    else t
  else t

/-- `PrefixTimeline` from `metrics.rs`. -/
structure PrefixTimeline where
  start_date : ℤ
  prefix_counts : List ℕ

/-- The running-total loop of `Timeline::into_prefix_sums`. -/
def prefixSumsAux (sum : ℕ) : List ℕ → List ℕ
  | [] => []
  | c :: rest => (sum + c) :: prefixSumsAux (sum + c) rest

/-- `Timeline::into_prefix_sums`. -/
def Timeline.into_prefix_sums (t : Timeline) : PrefixTimeline :=
  ⟨t.start_date, prefixSumsAux 0 t.counts⟩

/-- `PrefixTimeline::sum_in_window`: events in `(end_date - W, end_date]`,
with the source's bounds fallbacks (`last().unwrap_or(&0)`) and
`saturating_sub` (ℕ subtraction). -/
def PrefixTimeline.sum_in_window (pt : PrefixTimeline) (end_date : ℤ)
    (window_size_days : ℤ) : ℕ :=
  let end_idx_signed := end_date - pt.start_date
  if end_idx_signed < 0 then 0
  else
    let end_val :=
      if end_idx_signed.toNat < pt.prefix_counts.length then
        pt.prefix_counts.getD end_idx_signed.toNat 0
      else pt.prefix_counts.getLast?.getD 0
    let start_idx_signed := end_idx_signed - window_size_days
    let start_val :=
      if start_idx_signed < 0 then 0
      else if start_idx_signed.toNat < pt.prefix_counts.length then
        pt.prefix_counts.getD start_idx_signed.toNat 0
      else pt.prefix_counts.getLast?.getD 0
    end_val - start_val

/-! ## The metrics engine (`metrics.rs`) -/

/-- The single pass over `prs` in `calculate_metrics`: increment the
opened timeline at each creation day and the merged timeline at each
merge day. -/
def populate (prs : List GitHubPR) (ot mt : Timeline) : Timeline × Timeline :=
  prs.foldl
    (fun tls pr =>
      (tls.1.increment pr.created_at.day,
       match pr.merged_at with
       | some m2 => tls.2.increment m2.day
       | none => tls.2))
    (ot, mt)

/-- Rust's `(0..=n).rev()` over `i64`: `n, n-1, …, 0` (empty if `n < 0`). -/
def revRangeIncl (n : ℤ) : List ℤ :=
  if n < 0 then [] else ((List.range (n.toNat + 1)).map (fun k : ℕ => (k : ℤ))).reverse

/-- `calculate_summary` from `metrics.rs`.  `merge_rate` is
`((merged as f64 / opened as f64) * 100.0).round() as u32`, modelled by
exact rational arithmetic (`round` ties-up agrees with `f64::round`
ties-away-from-zero on non-negatives); `previous` is
`time_series.iter().rev().nth(1)`. -/
def calculate_summary (time_series : List FlowMetricsResponse) : SummaryMetrics :=
  match time_series.getLast? with
  | none => default
  | some latest =>
    let previous := time_series.reverse[1]?
    let merge_rate : ℕ :=
      if 0 < latest.opened then
        (round ((latest.merged : ℚ) / (latest.opened : ℚ) * 100)).toNat
      else 0
    let is_widening :=
      match previous with
      | some p => decide (p.spread < latest.spread)
      | none => false
    ⟨latest.opened, latest.merged, latest.spread, merge_rate, is_widening⟩

/-- `calculate_metrics` from `metrics.rs`.  The two `Duration` arguments
are passed as their `num_days()` values.  The end-of-day timestamp built
with `with_ymd_and_hms(y, m, d, 23, 59, 59).unwrap()` feeds only the
`%Y-%m-%d` formatter, which prints back exactly the components
`civilFromDays date_naive`; the success of that construction is a
separate theorem (claim C6). -/
def calculate_metrics (prs : List GitHubPR) (days_to_display window_size : ℤ)
    (now : Instant) : RepoMetricsResponse :=
  let days_to_display_count := days_to_display
  let window_size_days := window_size
  let latest_date := now.day
  let oldest_display_date := latest_date - days_to_display_count
  let start_date := oldest_display_date - window_size_days
  let tls := populate prs (Timeline.new start_date latest_date)
    (Timeline.new start_date latest_date)
  let openedPrefixTL := tls.1.into_prefix_sums
  let mergedPrefixTL := tls.2.into_prefix_sums
  let time_series := (revRangeIncl days_to_display_count).map (fun i =>
    let date : Instant := ⟨now.day - i, now.sec⟩
    let date_naive := date.day
    let opened := openedPrefixTL.sum_in_window date_naive window_size_days
    let merged := mergedPrefixTL.sum_in_window date_naive window_size_days
    let c := civilFromDays date_naive
    { date := formatYMD c.1 c.2.1 c.2.2
      opened := opened
      merged := merged
      spread := (opened : ℤ) - (merged : ℤ) : FlowMetricsResponse })
  { summary := calculate_summary time_series, time_series := time_series }

/-! ## End-of-day timestamp construction (for claim C6) -/

def END_OF_DAY_HOUR : ℤ := 23

def END_OF_DAY_MIN : ℤ := 59

def END_OF_DAY_SEC : ℤ := 59

/-- A `DateTime<Utc>` as built from components (chrono stores and prints
the calendar components of the date). -/
structure DateTimeU where
  year : ℤ
  month : ℤ
  day : ℤ
  hour : ℤ
  minute : ℤ
  second : ℤ
deriving DecidableEq

/-- `Utc.with_ymd_and_hms`: succeeds exactly on a valid calendar date and
in-range time of day (UTC never yields an ambiguous local time). -/
def with_ymd_and_hms (y m d hh mi ss : ℤ) : Option DateTimeU :=
  if isValidDate y m d ∧ 0 ≤ hh ∧ hh < 24 ∧ 0 ≤ mi ∧ mi < 60 ∧ 0 ≤ ss ∧ ss < 60 then
    some ⟨y, m, d, hh, mi, ss⟩
  else none

example : formatYMD 2024 1 10 = "2024-01-10" := by decide
example : civilFromDays (daysFromCivil 2024 1 10) = (2024, 1, 10) := by decide
example : daysFromCivil 2024 1 10 = 19732 := by decide

/-! ## Supporting lemmas: timelines count events, prefix sums count ranges -/

theorem countP_Icc_split (l : List ℤ) (a m b : ℤ) (h1 : a - 1 ≤ m) (h2 : m ≤ b) :
    l.countP (fun x => decide (a ≤ x ∧ x ≤ b)) =
      l.countP (fun x => decide (a ≤ x ∧ x ≤ m)) +
      l.countP (fun x => decide (m + 1 ≤ x ∧ x ≤ b)) := by
  induction l with
  | nil => rfl
  | cons x xs ih =>
    simp only [List.countP_cons, decide_eq_true_eq, ih]
    split_ifs <;> omega

theorem increment_fields (t : Timeline) (x : ℤ) :
    (t.increment x).start_date = t.start_date ∧ (t.increment x).end_date = t.end_date ∧
    (t.increment x).counts.length = t.counts.length := by
  simp only [Timeline.increment]
  split_ifs <;> simp [List.length_set]

theorem foldl_increment_fields (dates : List ℤ) (t : Timeline) :
    (dates.foldl Timeline.increment t).start_date = t.start_date ∧
    (dates.foldl Timeline.increment t).end_date = t.end_date ∧
    (dates.foldl Timeline.increment t).counts.length = t.counts.length := by
  induction dates generalizing t with
  | nil => exact ⟨rfl, rfl, rfl⟩
  | cons x xs ih =>
    have h1 := increment_fields t x
    have h2 := ih (t.increment x)
    refine ⟨?_, ?_, ?_⟩ <;> simp only [List.foldl_cons] <;> omega

theorem increment_getD (t : Timeline) (x : ℤ) (j : ℕ)
    (hsz : t.counts.length = (t.end_date - t.start_date).toNat + 1)
    (hse : t.start_date ≤ t.end_date) (hj : j < t.counts.length) :
    (t.increment x).counts.getD j 0 =
      t.counts.getD j 0 + (if x = t.start_date + (j : ℤ) then 1 else 0) := by
  unfold Timeline.increment
  by_cases hin : t.start_date ≤ x ∧ x ≤ t.end_date
  · rw [if_pos hin]
    have hidx : (x - t.start_date).toNat < t.counts.length := by omega
    rw [if_pos hidx]
    by_cases hxj : x = t.start_date + (j : ℤ)
    · have hjx : (x - t.start_date).toNat = j := by omega
      rw [if_pos hxj]
      simp only [hjx, List.getD_eq_getElem?_getD,
        List.getElem?_set_self (by omega : j < t.counts.length)]
      rfl
    · have hne : (x - t.start_date).toNat ≠ j := by omega
      rw [if_neg hxj]
      simp only [List.getD_eq_getElem?_getD, List.getElem?_set_ne hne]
      omega
  · rw [if_neg hin]
    have hxj : ¬ x = t.start_date + (j : ℤ) := by omega
    rw [if_neg hxj]
    omega

theorem foldl_increment_getD (dates : List ℤ) : ∀ (t : Timeline) (j : ℕ),
    t.counts.length = (t.end_date - t.start_date).toNat + 1 →
    t.start_date ≤ t.end_date → j < t.counts.length →
    (dates.foldl Timeline.increment t).counts.getD j 0 =
      t.counts.getD j 0 + dates.countP (fun x => decide (x = t.start_date + (j : ℤ))) := by
  induction dates with
  | nil => intro t j _ _ _; simp
  | cons x xs ih =>
    intro t j hsz hse hj
    have hf := increment_fields t x
    simp only [List.foldl_cons]
    rw [ih (t.increment x) j (by omega) (by omega) (by omega)]
    rw [increment_getD t x j hsz hse hj]
    rw [hf.1]
    simp only [List.countP_cons, decide_eq_true_eq]
    split_ifs <;> omega

theorem new_counts_getD (s e : ℤ) (j : ℕ) : (Timeline.new s e).counts.getD j 0 = 0 := by
  unfold Timeline.new
  simp only [List.getD_eq_getElem?_getD, List.getElem?_replicate]
  split_ifs <;> rfl

theorem new_fields (s e : ℤ) (hse : s ≤ e) :
    (Timeline.new s e).start_date = s ∧ (Timeline.new s e).end_date = e ∧
    (Timeline.new s e).counts.length = (e - s).toNat + 1 := by
  refine ⟨rfl, rfl, ?_⟩
  show (List.replicate (if 0 ≤ e - s then (e - s + 1).toNat else 0) 0).length =
    (e - s).toNat + 1
  rw [List.length_replicate, if_pos (show (0 : ℤ) ≤ e - s by omega)]
  omega

theorem prefixSumsAux_length (l : List ℕ) : ∀ s, (prefixSumsAux s l).length = l.length := by
  induction l with
  | nil => intro s; rfl
  | cons c cs ih => intro s; simp [prefixSumsAux, ih]

theorem prefixSumsAux_getD (l : List ℕ) : ∀ (s : ℕ) (j : ℕ), j < l.length →
    (prefixSumsAux s l).getD j 0 = s + (l.take (j + 1)).sum := by
  induction l with
  | nil => intro s j hj; simp at hj
  | cons c cs ih =>
    intro s j hj
    cases j with
    | zero => simp [prefixSumsAux]
    | succ k =>
      have hk : k < cs.length := by simpa using hj
      show (prefixSumsAux (s + c) cs).getD k 0 = s + ((c :: cs).take (k + 1 + 1)).sum
      rw [ih (s + c) k hk]
      rw [List.take_succ_cons, List.sum_cons]
      omega

theorem take_one_sum (l : List ℕ) : (l.take 1).sum = l.getD 0 0 := by
  cases l <;> simp

theorem built_counts_sum (dates : List ℤ) (s e : ℤ) (hse : s ≤ e) : ∀ (j : ℕ),
    j ≤ (e - s).toNat →
    (((dates.foldl Timeline.increment (Timeline.new s e)).counts.take (j + 1)).sum) =
      dates.countP (fun x => decide (s ≤ x ∧ x ≤ s + (j : ℤ))) := by
  have hnf := new_fields s e hse
  have hff := foldl_increment_fields dates (Timeline.new s e)
  intro j
  induction j with
  | zero =>
    intro _
    rw [take_one_sum]
    rw [foldl_increment_getD dates (Timeline.new s e) 0 (by omega) (by omega) (by omega)]
    rw [new_counts_getD]
    rw [hnf.1]
    have e0 : dates.countP (fun x => decide (x = s + ((0 : ℕ) : ℤ))) =
        dates.countP (fun x => decide (s ≤ x ∧ x ≤ s + ((0 : ℕ) : ℤ))) := by
      refine List.countP_congr ?_
      intro x hx
      simp only [decide_eq_true_eq]
      omega
    omega
  | succ k ih =>
    intro hk1
    have hklen : k + 1 < (dates.foldl Timeline.increment (Timeline.new s e)).counts.length := by
      omega
    rw [List.sum_take_succ _ (k + 1) hklen]
    rw [ih (by omega)]
    have hget : (dates.foldl Timeline.increment (Timeline.new s e)).counts[k + 1] =
        (dates.foldl Timeline.increment (Timeline.new s e)).counts.getD (k + 1) 0 := by
      rw [List.getD_eq_getElem?_getD, List.getElem?_eq_getElem hklen]
      rfl
    rw [hget]
    rw [foldl_increment_getD dates (Timeline.new s e) (k + 1) (by omega) (by omega) (by omega)]
    rw [new_counts_getD]
    rw [hnf.1]
    have hcast : ((k + 1 : ℕ) : ℤ) = (k : ℤ) + 1 := by push_cast; ring
    simp only [hcast]
    have hsplit := countP_Icc_split dates s (s + (k : ℤ)) (s + ((k : ℤ) + 1))
      (by omega) (by omega)
    have e2 : dates.countP (fun x => decide (s + (k : ℤ) + 1 ≤ x ∧ x ≤ s + ((k : ℤ) + 1))) =
        dates.countP (fun x => decide (x = s + ((k : ℤ) + 1))) := by
      refine List.countP_congr ?_
      intro x hx
      simp only [decide_eq_true_eq]
      omega
    omega

theorem built_prefix_getD (dates : List ℤ) (s e : ℤ) (hse : s ≤ e) (j : ℕ)
    (hj : j ≤ (e - s).toNat) :
    ((dates.foldl Timeline.increment (Timeline.new s e)).into_prefix_sums).prefix_counts.getD
      j 0 = dates.countP (fun x => decide (s ≤ x ∧ x ≤ s + (j : ℤ))) := by
  have hnf := new_fields s e hse
  have hff := foldl_increment_fields dates (Timeline.new s e)
  show (prefixSumsAux 0 (dates.foldl Timeline.increment (Timeline.new s e)).counts).getD j 0 = _
  rw [prefixSumsAux_getD _ 0 j (by omega)]
  rw [Nat.zero_add]
  exact built_counts_sum dates s e hse j hj

/-- The core refinement fact: on any date in the covered range,
`sum_in_window` over the built prefix timeline counts exactly the events
in the trailing window `(dn - W, dn]`. -/
theorem sum_in_window_count (dates : List ℤ) (s e dn W : ℤ)
    (hW : 0 ≤ W) (hs : s ≤ dn - W) (he : dn ≤ e) :
    ((dates.foldl Timeline.increment (Timeline.new s e)).into_prefix_sums).sum_in_window dn W
      = dates.countP (fun x => decide (dn - W + 1 ≤ x ∧ x ≤ dn)) := by
  have hse : s ≤ e := by omega
  have hnf := new_fields s e hse
  have hff := foldl_increment_fields dates (Timeline.new s e)
  have hsd : ((dates.foldl Timeline.increment (Timeline.new s e)).into_prefix_sums).start_date
      = s := by
    show (dates.foldl Timeline.increment (Timeline.new s e)).start_date = s
    omega
  have hlen : ((dates.foldl Timeline.increment
      (Timeline.new s e)).into_prefix_sums).prefix_counts.length = (e - s).toNat + 1 := by
    show (prefixSumsAux 0 (dates.foldl Timeline.increment (Timeline.new s e)).counts).length = _
    rw [prefixSumsAux_length]
    omega
  simp only [PrefixTimeline.sum_in_window]
  rw [hsd, hlen]
  rw [if_neg (show ¬ (dn - s < 0) by omega)]
  rw [if_pos (show (dn - s).toNat < (e - s).toNat + 1 by omega)]
  rw [if_neg (show ¬ (dn - s - W < 0) by omega)]
  rw [if_pos (show (dn - s - W).toNat < (e - s).toNat + 1 by omega)]
  rw [built_prefix_getD dates s e hse (dn - s).toNat (by omega)]
  rw [built_prefix_getD dates s e hse (dn - s - W).toNat (by omega)]
  have e1 : dates.countP (fun x => decide (s ≤ x ∧ x ≤ s + ((dn - s).toNat : ℤ))) =
      dates.countP (fun x => decide (s ≤ x ∧ x ≤ dn)) := by
    refine List.countP_congr ?_
    intro x hx
    simp only [decide_eq_true_eq]
    omega
  have e2 : dates.countP (fun x => decide (s ≤ x ∧ x ≤ s + ((dn - s - W).toNat : ℤ))) =
      dates.countP (fun x => decide (s ≤ x ∧ x ≤ dn - W)) := by
    refine List.countP_congr ?_
    intro x hx
    simp only [decide_eq_true_eq]
    omega
  rw [e1, e2]
  have hsplit := countP_Icc_split dates s (dn - W) dn (by omega) (by omega)
  have e5 : dates.countP (fun x => decide (dn - W + 1 ≤ x ∧ x ≤ dn)) =
      dates.countP (fun x => decide (dn - W + 1 ≤ x ∧ x ≤ dn)) := rfl
  omega

/-! ## Structure of the produced time series -/

theorem populate_eq (prs : List GitHubPR) : ∀ (ot mt : Timeline),
    populate prs ot mt =
      ((prs.map (fun pr => pr.created_at.day)).foldl Timeline.increment ot,
       (prs.filterMap (fun pr => pr.merged_at.map (fun m2 => m2.day))).foldl
         Timeline.increment mt) := by
  induction prs with
  | nil => intro ot mt; rfl
  | cons pr rest ih =>
    intro ot mt
    have h1 : populate (pr :: rest) ot mt = populate rest (ot.increment pr.created_at.day)
        (match pr.merged_at with | some m2 => mt.increment m2.day | none => mt) := rfl
    rw [h1]
    rcases hm : pr.merged_at with _ | m2
    · simp only [hm, List.map_cons, List.foldl_cons, List.filterMap_cons, Option.map_none']
      exact ih _ _
    · simp only [hm, List.map_cons, List.foldl_cons, List.filterMap_cons, Option.map_some']
      exact ih _ _

/-- The point that `calculate_metrics` emits for offset `i` (the body of
its `map`, with the shared timelines recomputed in place). -/
def metricPoint (prs : List GitHubPR) (days_to_display window_size : ℤ)
    (now : Instant) (i : ℤ) : FlowMetricsResponse :=
  let latest_date := now.day
  let oldest_display_date := latest_date - days_to_display
  let start_date := oldest_display_date - window_size
  let tls := populate prs (Timeline.new start_date latest_date)
    (Timeline.new start_date latest_date)
  let opened := (tls.1.into_prefix_sums).sum_in_window (now.day - i) window_size
  let merged := (tls.2.into_prefix_sums).sum_in_window (now.day - i) window_size
  let c := civilFromDays (now.day - i)
  ⟨formatYMD c.1 c.2.1 c.2.2, opened, merged, (opened : ℤ) - (merged : ℤ)⟩

theorem calc_time_series (prs : List GitHubPR) (D W : ℤ) (now : Instant) :
    (calculate_metrics prs D W now).time_series =
      (revRangeIncl D).map (metricPoint prs D W now) := rfl

theorem calc_summary_eq (prs : List GitHubPR) (D W : ℤ) (now : Instant) :
    (calculate_metrics prs D W now).summary =
      calculate_summary ((calculate_metrics prs D W now).time_series) := rfl

theorem metricPoint_opened (prs : List GitHubPR) (D W : ℤ) (now : Instant) (i : ℤ) :
    (metricPoint prs D W now i).opened =
      ((populate prs (Timeline.new (now.day - D - W) now.day)
        (Timeline.new (now.day - D - W) now.day)).1.into_prefix_sums).sum_in_window
        (now.day - i) W := rfl

theorem metricPoint_merged (prs : List GitHubPR) (D W : ℤ) (now : Instant) (i : ℤ) :
    (metricPoint prs D W now i).merged =
      ((populate prs (Timeline.new (now.day - D - W) now.day)
        (Timeline.new (now.day - D - W) now.day)).2.into_prefix_sums).sum_in_window
        (now.day - i) W := rfl

theorem metricPoint_date (prs : List GitHubPR) (D W : ℤ) (now : Instant) (i : ℤ) :
    (metricPoint prs D W now i).date =
      formatYMD (civilFromDays (now.day - i)).1 (civilFromDays (now.day - i)).2.1
        (civilFromDays (now.day - i)).2.2 := rfl

theorem metricPoint_spread (prs : List GitHubPR) (D W : ℤ) (now : Instant) (i : ℤ) :
    (metricPoint prs D W now i).spread =
      ((metricPoint prs D W now i).opened : ℤ) - ((metricPoint prs D W now i).merged : ℤ) :=
  rfl

theorem revRangeIncl_length (n : ℤ) (hn : 0 ≤ n) :
    (revRangeIncl n).length = n.toNat + 1 := by
  unfold revRangeIncl
  rw [if_neg (by omega : ¬ n < 0)]
  rw [List.length_reverse, List.length_map, List.length_range]

theorem revRangeIncl_getElem?_eq (n : ℤ) (hn : 0 ≤ n) (j : ℕ) (hj : j ≤ n.toNat) :
    (revRangeIncl n)[j]? = some (n - (j : ℤ)) := by
  have hrw : revRangeIncl n = ((List.range (n.toNat + 1)).map (fun k : ℕ => (k : ℤ))).reverse := by
    unfold revRangeIncl
    rw [if_neg (by omega : ¬ n < 0)]
  rw [hrw]
  rw [List.getElem?_reverse (by rw [List.length_map, List.length_range]; omega)]
  rw [List.length_map, List.length_range]
  rw [List.getElem?_map]
  rw [List.getElem?_range (by omega)]
  rw [Option.map_some']
  congr 1
  omega

theorem revRangeIncl_getElem (n : ℤ) (hn : 0 ≤ n) (j : ℕ)
    (hj : j < (revRangeIncl n).length) :
    (revRangeIncl n)[j] = n - (j : ℤ) := by
  have hjle : j ≤ n.toNat := by
    have := revRangeIncl_length n hn
    omega
  have h1 := List.getElem?_eq_getElem hj
  rw [revRangeIncl_getElem?_eq n hn j hjle] at h1
  exact (Option.some_inj.mp h1).symm

/-- Point `j` of the series (0-based, oldest first) is the point for
offset `i = D - j`. -/
theorem series_get (prs : List GitHubPR) (D W : ℤ) (now : Instant) (hD : 0 ≤ D)
    (j : ℕ) (hj : j < (calculate_metrics prs D W now).time_series.length) :
    (calculate_metrics prs D W now).time_series[j] =
      metricPoint prs D W now (D - (j : ℤ)) := by
  have hts := calc_time_series prs D W now
  have hjr : j < (revRangeIncl D).length := by
    have hl : (calculate_metrics prs D W now).time_series.length =
        (revRangeIncl D).length := by
      rw [hts, List.length_map]
    omega
  rw [List.getElem_of_eq hts hj]
  rw [List.getElem_map]
  congr 1
  exact revRangeIncl_getElem D hD j hjr

/-! ## Spec-side definitions and concrete inputs -/

/-- The naive per-point filter-count, written from the spec's words for
refinement claim C1: the number of `days` lying in the trailing `W`-day
window `date - W + 1 … date` (inclusive). -/
def naiveWindowCount (days : List ℤ) (date W : ℤ) : ℕ :=
  (days.filter (fun x => decide (date - W + 1 ≤ x ∧ x ≤ date))).length

/-- Creation days of a record list. -/
def openedDays (prs : List GitHubPR) : List ℤ :=
  prs.map (fun pr => pr.created_at.day)

/-- Merge days of a record list (records without a merge are skipped). -/
def mergedDays (prs : List GitHubPR) : List ℤ :=
  prs.filterMap (fun pr => pr.merged_at.map (fun m2 => m2.day))

theorem populate_fst (prs : List GitHubPR) (ot mt : Timeline) :
    (populate prs ot mt).1 = (openedDays prs).foldl Timeline.increment ot := by
  rw [populate_eq]
  rfl

theorem populate_snd (prs : List GitHubPR) (ot mt : Timeline) :
    (populate prs ot mt).2 = (mergedDays prs).foldl Timeline.increment mt := by
  rw [populate_eq]
  rfl

/-- `now = 2024-01-10T12:00Z`. -/
def exNow : Instant := ⟨daysFromCivil 2024 1 10, 43200⟩

/-- A record created 2024-01-05 and merged 2024-01-06. -/
def exPR1 : GitHubPR :=
  ⟨1, ⟨daysFromCivil 2024 1 5, 36000⟩, some ⟨daysFromCivil 2024 1 6, 36000⟩, PRState.Merged⟩

/-- A record created 2024-01-09 and never merged. -/
def exPR2 : GitHubPR := ⟨2, ⟨daysFromCivil 2024 1 9, 36000⟩, none, PRState.Open⟩

/-- Like `exPR1` but with a different `id` and `state` (for claim C10). -/
def exPR1b : GitHubPR := ⟨99, exPR1.created_at, exPR1.merged_at, PRState.Unknown⟩

/-! ## The claims -/

/-- C1: for every record list, non-negative `D` and `W`, and instant `now`,
each point of the series returned by `calculate_metrics` has `opened` equal
to the number of records created in the trailing `W`-day window ending at
that point's day (`date - W + 1 … date`), and `merged` equal to the number
of records merged in that window: the prefix-sum computation equals the
naive per-point filter-count. -/
theorem C1_prefix_sums_equal_naive_count (prs : List GitHubPR) (D W : ℤ)
    (now : Instant) (hD : 0 ≤ D) (hW : 0 ≤ W) (j : ℕ)
    (hj : j < (calculate_metrics prs D W now).time_series.length) :
    ((calculate_metrics prs D W now).time_series[j]).opened =
      naiveWindowCount (openedDays prs) (now.day - D + (j : ℤ)) W ∧
    ((calculate_metrics prs D W now).time_series[j]).merged =
      naiveWindowCount (mergedDays prs) (now.day - D + (j : ℤ)) W := by
  have hjD : (j : ℤ) ≤ D := by
    have hl : (calculate_metrics prs D W now).time_series.length = D.toNat + 1 := by
      rw [calc_time_series, List.length_map, revRangeIncl_length D hD]
    omega
  constructor
  · rw [series_get prs D W now hD j hj]
    rw [metricPoint_opened, populate_fst]
    rw [show now.day - (D - (j : ℤ)) = now.day - D + (j : ℤ) from by ring]
    have hw := sum_in_window_count (openedDays prs) (now.day - D - W) now.day
      (now.day - D + (j : ℤ)) W hW (by omega) (by omega)
    rw [hw]
    unfold naiveWindowCount
    rw [← List.countP_eq_length_filter]
  · rw [series_get prs D W now hD j hj]
    rw [metricPoint_merged, populate_snd]
    rw [show now.day - (D - (j : ℤ)) = now.day - D + (j : ℤ) from by ring]
    have hw := sum_in_window_count (mergedDays prs) (now.day - D - W) now.day
      (now.day - D + (j : ℤ)) W hW (by omega) (by omega)
    rw [hw]
    unfold naiveWindowCount
    rw [← List.countP_eq_length_filter]

theorem C1_witness :
    (0 : ℤ) ≤ 0 ∧ (0 : ℤ) ≤ 30 ∧
    (((calculate_metrics [exPR1, exPR2] 0 30 exNow).time_series.get
        ⟨0, by decide⟩).opened =
      naiveWindowCount (openedDays [exPR1, exPR2]) (exNow.day - 0 + ((0 : ℕ) : ℤ)) 30 ∧
     ((calculate_metrics [exPR1, exPR2] 0 30 exNow).time_series.get
        ⟨0, by decide⟩).merged =
      naiveWindowCount (mergedDays [exPR1, exPR2]) (exNow.day - 0 + ((0 : ℕ) : ℤ)) 30) :=
  ⟨le_refl 0, by norm_num,
    C1_prefix_sums_equal_naive_count [exPR1, exPR2] 0 30 exNow (le_refl 0)
      (by norm_num) 0 (by decide)⟩

/-- C2: for every record list, non-negative `D` and `W`, and instant `now`,
the series returned by `calculate_metrics` has exactly `D + 1` points,
ordered oldest to newest, one per calendar day from `now - D` to `now`
inclusive: point `j` carries the `%Y-%m-%d` string of day `now - D + j`. -/
theorem C2_series_length_and_dates (prs : List GitHubPR) (D W : ℤ)
    (now : Instant) (hD : 0 ≤ D) :
    (((calculate_metrics prs D W now).time_series.length : ℤ) = D + 1) ∧
    ∀ j (hj : j < (calculate_metrics prs D W now).time_series.length),
      ((calculate_metrics prs D W now).time_series[j]).date =
        formatYMD (civilFromDays (now.day - D + (j : ℤ))).1
          (civilFromDays (now.day - D + (j : ℤ))).2.1
          (civilFromDays (now.day - D + (j : ℤ))).2.2 := by
  constructor
  · rw [calc_time_series, List.length_map, revRangeIncl_length D hD]
    push_cast
    omega
  · intro j hj
    rw [series_get prs D W now hD j hj]
    rw [metricPoint_date]
    rw [show now.day - (D - (j : ℤ)) = now.day - D + (j : ℤ) from by ring]

theorem C2_witness :
    (0 : ℤ) ≤ 1 ∧
    (((calculate_metrics [exPR1] 1 30 exNow).time_series.length : ℤ) = 1 + 1) ∧
    ((calculate_metrics [exPR1] 1 30 exNow).time_series.get ⟨0, by decide⟩).date =
      formatYMD (civilFromDays (exNow.day - 1 + ((0 : ℕ) : ℤ))).1
        (civilFromDays (exNow.day - 1 + ((0 : ℕ) : ℤ))).2.1
        (civilFromDays (exNow.day - 1 + ((0 : ℕ) : ℤ))).2.2 :=
  ⟨by norm_num,
   (C2_series_length_and_dates [exPR1] 1 30 exNow (by norm_num)).1,
   (C2_series_length_and_dates [exPR1] 1 30 exNow (by norm_num)).2 0 (by decide)⟩

/-- C10: `calculate_metrics` does not depend on the `id` or `state` field
of any record: two record lists agreeing pointwise on `created_at` and
`merged_at` produce identical snapshots. -/
theorem C10_independent_of_id_and_state (prs1 prs2 : List GitHubPR) (D W : ℤ)
    (now : Instant)
    (h : List.Forall₂
      (fun a b => a.created_at = b.created_at ∧ a.merged_at = b.merged_at) prs1 prs2) :
    calculate_metrics prs1 D W now = calculate_metrics prs2 D W now := by
  have hmap : openedDays prs1 = openedDays prs2 := by
    unfold openedDays
    induction h with
    | nil => rfl
    | cons hab _ ih => simp only [List.map_cons, hab.1, ih]
  have hfm : mergedDays prs1 = mergedDays prs2 := by
    clear hmap
    unfold mergedDays
    induction h with
    | nil => rfl
    | cons hab _ ih => simp only [List.filterMap_cons, hab.2, ih]
  have hpt : ∀ i, metricPoint prs1 D W now i = metricPoint prs2 D W now i := by
    intro i
    simp only [metricPoint]
    rw [populate_eq, populate_eq]
    have hm2 : prs1.map (fun pr => pr.created_at.day) =
        prs2.map (fun pr => pr.created_at.day) := hmap
    have hf2 : prs1.filterMap (fun pr => pr.merged_at.map (fun m2 => m2.day)) =
        prs2.filterMap (fun pr => pr.merged_at.map (fun m2 => m2.day)) := hfm
    rw [hm2, hf2]
  have hts : (calculate_metrics prs1 D W now).time_series =
      (calculate_metrics prs2 D W now).time_series := by
    rw [calc_time_series, calc_time_series, funext hpt]
  have hsum : (calculate_metrics prs1 D W now).summary =
      (calculate_metrics prs2 D W now).summary := by
    rw [calc_summary_eq, calc_summary_eq, hts]
  have h1 : calculate_metrics prs1 D W now =
      ⟨(calculate_metrics prs1 D W now).summary,
       (calculate_metrics prs1 D W now).time_series⟩ := rfl
  have h2 : calculate_metrics prs2 D W now =
      ⟨(calculate_metrics prs2 D W now).summary,
       (calculate_metrics prs2 D W now).time_series⟩ := rfl
  rw [h1, h2, hsum, hts]

theorem C10_witness :
    List.Forall₂
      (fun a b => a.created_at = b.created_at ∧ a.merged_at = b.merged_at)
      [exPR1] [exPR1b] ∧
    calculate_metrics [exPR1] 0 30 exNow = calculate_metrics [exPR1b] 0 30 exNow :=
  ⟨List.Forall₂.cons ⟨rfl, rfl⟩ List.Forall₂.nil,
   C10_independent_of_id_and_state [exPR1] [exPR1b] 0 30 exNow
     (List.Forall₂.cons ⟨rfl, rfl⟩ List.Forall₂.nil)⟩

/-! ## Summary claims (C3, C4, C5) -/

theorem calculate_summary_of_last (ts : List FlowMetricsResponse)
    (latest : FlowMetricsResponse) (hlast : ts.getLast? = some latest) :
    calculate_summary ts =
      ⟨latest.opened, latest.merged, latest.spread,
       (if 0 < latest.opened
        then (round ((latest.merged : ℚ) / (latest.opened : ℚ) * 100)).toNat else 0),
       (match ts.reverse[1]? with
        | some p => decide (p.spread < latest.spread)
        | none => false)⟩ := by
  unfold calculate_summary
  rw [hlast]

theorem series_getLast?_eq (prs : List GitHubPR) (D W : ℤ) (now : Instant)
    (hD : 0 ≤ D) :
    ∃ latest, (calculate_metrics prs D W now).time_series.getLast? = some latest := by
  have hl : (calculate_metrics prs D W now).time_series.length = D.toNat + 1 := by
    rw [calc_time_series, List.length_map, revRangeIncl_length D hD]
  have hne : (calculate_metrics prs D W now).time_series ≠ [] := by
    intro hc
    rw [hc] at hl
    simp at hl
  exact Option.isSome_iff_exists.mp (List.getLast?_isSome.mpr hne)

/-- Two records created before the window (2023-11-01) but merged inside
it (2024-01-05), plus `exPR2` opened inside the window and never merged. -/
def exC3prs : List GitHubPR :=
  [⟨3, ⟨daysFromCivil 2023 11 1, 0⟩, some ⟨daysFromCivil 2024 1 5, 0⟩, PRState.Merged⟩,
   ⟨4, ⟨daysFromCivil 2023 11 1, 0⟩, some ⟨daysFromCivil 2024 1 5, 0⟩, PRState.Merged⟩,
   exPR2]

/-- C3 (counterexample): the original claim "mergeRate is a percentage
between 0 and 100 inclusive" is false on the code.  `exC3prs` gives a last
point with `opened = 1`, `merged = 2`, and `mergeRate = 200`. -/
theorem C3_counterexample :
    (calculate_metrics exC3prs 0 30 exNow).summary.merge_rate = 200 ∧
    ¬ ((calculate_metrics exC3prs 0 30 exNow).summary.merge_rate ≤ 100) := by
  have hts : (calculate_metrics exC3prs 0 30 exNow).time_series =
      [⟨"2024-01-10", 1, 2, -1⟩] := by decide
  have hsum : (calculate_metrics exC3prs 0 30 exNow).summary = ⟨1, 2, -1, 200, false⟩ := by
    rw [calc_summary_eq, hts]
    show (⟨1, 2, -1,
      (if 0 < (1 : ℕ) then (round (((2 : ℕ) : ℚ) / ((1 : ℕ) : ℚ) * 100)).toNat else 0),
      false⟩ : SummaryMetrics) = ⟨1, 2, -1, 200, false⟩
    rw [SummaryMetrics.mk.injEq]
    refine ⟨rfl, rfl, rfl, ?_, rfl⟩
    rw [if_pos (by norm_num)]
    norm_num
    decide
  rw [hsum]
  exact ⟨rfl, by decide⟩

/-- C3 (amended): `mergeRate` is a non-negative integer, equal to `0` when
the last point's `opened` is `0`; it lies within `0..100` whenever the
last point's `merged` count does not exceed its `opened` count, but can
exceed `100` when more records were merged than opened in the window. -/
theorem C3_merge_rate_bounded_when_merged_le_opened (prs : List GitHubPR)
    (D W : ℤ) (now : Instant) (hD : 0 ≤ D) :
    ∃ latest, (calculate_metrics prs D W now).time_series.getLast? = some latest ∧
      (latest.merged ≤ latest.opened →
        (calculate_metrics prs D W now).summary.merge_rate ≤ 100) ∧
      (latest.opened = 0 → (calculate_metrics prs D W now).summary.merge_rate = 0) := by
  obtain ⟨latest, hlast⟩ := series_getLast?_eq prs D W now hD
  refine ⟨latest, hlast, ?_, ?_⟩
  · intro hmo
    rw [calc_summary_eq, calculate_summary_of_last _ _ hlast]
    show (if 0 < latest.opened
        then (round ((latest.merged : ℚ) / (latest.opened : ℚ) * 100)).toNat else 0) ≤ 100
    by_cases hop : 0 < latest.opened
    · rw [if_pos hop]
      have hq : ((latest.merged : ℚ) / (latest.opened : ℚ) * 100) ≤ 100 := by
        rw [div_mul_eq_mul_div, div_le_iff₀ (by positivity)]
        have hc : (latest.merged : ℚ) ≤ (latest.opened : ℚ) := by exact_mod_cast hmo
        linarith
      have hr : round ((latest.merged : ℚ) / (latest.opened : ℚ) * 100) ≤
          round (100 : ℚ) := by
        rw [round_eq, round_eq]
        exact Int.floor_le_floor (by linarith)
      have h100 : round (100 : ℚ) = 100 := by norm_num [round_eq]
      rw [Int.toNat_le]
      omega
    · rw [if_neg hop]
      omega
  · intro hz
    rw [calc_summary_eq, calculate_summary_of_last _ _ hlast]
    show (if 0 < latest.opened
        then (round ((latest.merged : ℚ) / (latest.opened : ℚ) * 100)).toNat else 0) = 0
    rw [if_neg (by omega)]

theorem C3_witness :
    (0 : ℤ) ≤ 0 ∧
    (∃ latest,
      (calculate_metrics [exPR1, exPR2] 0 30 exNow).time_series.getLast? = some latest ∧
      (latest.merged ≤ latest.opened →
        (calculate_metrics [exPR1, exPR2] 0 30 exNow).summary.merge_rate ≤ 100) ∧
      (latest.opened = 0 →
        (calculate_metrics [exPR1, exPR2] 0 30 exNow).summary.merge_rate = 0)) :=
  ⟨le_refl 0,
   C3_merge_rate_bounded_when_merged_le_opened [exPR1, exPR2] 0 30 exNow (le_refl 0)⟩

/-- C4: the summary of every produced snapshot is derived from the last
series point: `mergeRate = round(merged/opened*100)` when the last point's
`opened > 0` and `0` otherwise; `isWidening` is true iff the last point's
spread strictly exceeds the second-to-last point's spread, and is false
when fewer than two points exist. -/
theorem C4_summary_from_last_point (prs : List GitHubPR) (D W : ℤ)
    (now : Instant) (hD : 0 ≤ D) :
    ∃ latest, (calculate_metrics prs D W now).time_series.getLast? = some latest ∧
      (calculate_metrics prs D W now).summary.merge_rate =
        (if 0 < latest.opened
         then (round ((latest.merged : ℚ) / (latest.opened : ℚ) * 100)).toNat else 0) ∧
      (2 ≤ (calculate_metrics prs D W now).time_series.length →
        (calculate_metrics prs D W now).time_series.reverse[1]? =
          (calculate_metrics prs D W now).time_series[
            (calculate_metrics prs D W now).time_series.length - 2]?) ∧
      (∀ prev, (calculate_metrics prs D W now).time_series.reverse[1]? = some prev →
        ((calculate_metrics prs D W now).summary.is_widening = true ↔
          prev.spread < latest.spread)) ∧
      ((calculate_metrics prs D W now).time_series.length < 2 →
        (calculate_metrics prs D W now).summary.is_widening = false) := by
  obtain ⟨latest, hlast⟩ := series_getLast?_eq prs D W now hD
  refine ⟨latest, hlast, ?_, ?_, ?_, ?_⟩
  · rw [calc_summary_eq, calculate_summary_of_last _ _ hlast]
  · intro h2
    rw [List.getElem?_reverse (by omega)]
    congr 1
  · intro prev hprev
    rw [calc_summary_eq, calculate_summary_of_last _ _ hlast]
    show (match (calculate_metrics prs D W now).time_series.reverse[1]? with
      | some p => decide (p.spread < latest.spread)
      | none => false) = true ↔ prev.spread < latest.spread
    rw [hprev]
    simp
  · intro hlt
    rw [calc_summary_eq, calculate_summary_of_last _ _ hlast]
    show (match (calculate_metrics prs D W now).time_series.reverse[1]? with
      | some p => decide (p.spread < latest.spread)
      | none => false) = false
    rw [List.getElem?_eq_none (by rw [List.length_reverse]; omega)]

theorem C4_witness :
    (0 : ℤ) ≤ 0 ∧
    (∃ latest,
      (calculate_metrics [exPR1, exPR2] 0 30 exNow).time_series.getLast? = some latest ∧
      (calculate_metrics [exPR1, exPR2] 0 30 exNow).summary.merge_rate =
        (if 0 < latest.opened
         then (round ((latest.merged : ℚ) / (latest.opened : ℚ) * 100)).toNat else 0) ∧
      (2 ≤ (calculate_metrics [exPR1, exPR2] 0 30 exNow).time_series.length →
        (calculate_metrics [exPR1, exPR2] 0 30 exNow).time_series.reverse[1]? =
          (calculate_metrics [exPR1, exPR2] 0 30 exNow).time_series[
            (calculate_metrics [exPR1, exPR2] 0 30 exNow).time_series.length - 2]?) ∧
      (∀ prev,
        (calculate_metrics [exPR1, exPR2] 0 30 exNow).time_series.reverse[1]? = some prev →
        ((calculate_metrics [exPR1, exPR2] 0 30 exNow).summary.is_widening = true ↔
          prev.spread < latest.spread)) ∧
      ((calculate_metrics [exPR1, exPR2] 0 30 exNow).time_series.length < 2 →
        (calculate_metrics [exPR1, exPR2] 0 30 exNow).summary.is_widening = false)) :=
  ⟨le_refl 0, C4_summary_from_last_point [exPR1, exPR2] 0 30 exNow (le_refl 0)⟩

/-- C5: the concrete scenario — records created 2024-01-05 (merged
2024-01-06) and 2024-01-09 (never merged), `now = 2024-01-10T12:00Z`,
`D = 0`, `W = 30` — produces exactly one point
`{date "2024-01-10", opened 2, merged 1, spread 1}` and summary
`{currentOpened 2, currentMerged 1, currentSpread 1, mergeRate 50,
isWidening false}`. -/
theorem C5_concrete_scenario :
    calculate_metrics [exPR1, exPR2] 0 30 exNow =
      ⟨⟨2, 1, 1, 50, false⟩, [⟨"2024-01-10", 2, 1, 1⟩]⟩ := by
  have hts : (calculate_metrics [exPR1, exPR2] 0 30 exNow).time_series =
      [⟨"2024-01-10", 2, 1, 1⟩] := by decide
  have hsum : (calculate_metrics [exPR1, exPR2] 0 30 exNow).summary =
      ⟨2, 1, 1, 50, false⟩ := by
    rw [calc_summary_eq, hts]
    show (⟨2, 1, 1,
      (if 0 < (2 : ℕ) then (round (((1 : ℕ) : ℚ) / ((2 : ℕ) : ℚ) * 100)).toNat else 0),
      false⟩ : SummaryMetrics) = ⟨2, 1, 1, 50, false⟩
    rw [SummaryMetrics.mk.injEq]
    refine ⟨rfl, rfl, rfl, ?_, rfl⟩
    rw [if_pos (by norm_num)]
    norm_num
    decide
  have heta : calculate_metrics [exPR1, exPR2] 0 30 exNow =
      ⟨(calculate_metrics [exPR1, exPR2] 0 30 exNow).summary,
       (calculate_metrics [exPR1, exPR2] 0 30 exNow).time_series⟩ := rfl
  rw [heta, hsum, hts]

/-! ## C6: the engine's partial operations never fail -/

/-- All index accesses made by `sum_in_window` on `pt` at `(dn, W)` stay
in bounds (the defensive fallbacks `last().unwrap_or(&0)` are not used)
and the final `saturating_sub` does not truncate. -/
def sum_in_window_safe (pt : PrefixTimeline) (dn W : ℤ) : Prop :=
  0 ≤ dn - pt.start_date ∧
  (dn - pt.start_date).toNat < pt.prefix_counts.length ∧
  0 ≤ dn - pt.start_date - W ∧
  (dn - pt.start_date - W).toNat < pt.prefix_counts.length ∧
  pt.prefix_counts.getD (dn - pt.start_date - W).toNat 0 ≤
    pt.prefix_counts.getD (dn - pt.start_date).toNat 0

theorem window_access_safe (dates : List ℤ) (s e dn W : ℤ)
    (hW : 0 ≤ W) (hs : s ≤ dn - W) (he : dn ≤ e) :
    sum_in_window_safe
      ((dates.foldl Timeline.increment (Timeline.new s e)).into_prefix_sums) dn W := by
  have hse : s ≤ e := by omega
  have hnf := new_fields s e hse
  have hff := foldl_increment_fields dates (Timeline.new s e)
  have hsd : ((dates.foldl Timeline.increment (Timeline.new s e)).into_prefix_sums).start_date
      = s := by
    show (dates.foldl Timeline.increment (Timeline.new s e)).start_date = s
    omega
  have hlen : ((dates.foldl Timeline.increment
      (Timeline.new s e)).into_prefix_sums).prefix_counts.length = (e - s).toNat + 1 := by
    show (prefixSumsAux 0 (dates.foldl Timeline.increment (Timeline.new s e)).counts).length = _
    rw [prefixSumsAux_length]
    omega
  unfold sum_in_window_safe
  rw [hsd, hlen]
  refine ⟨by omega, by omega, by omega, by omega, ?_⟩
  rw [built_prefix_getD dates s e hse (dn - s - W).toNat (by omega)]
  rw [built_prefix_getD dates s e hse (dn - s).toNat (by omega)]
  have e1 : dates.countP (fun x => decide (s ≤ x ∧ x ≤ s + ((dn - s).toNat : ℤ))) =
      dates.countP (fun x => decide (s ≤ x ∧ x ≤ dn)) := by
    refine List.countP_congr ?_
    intro x hx
    simp only [decide_eq_true_eq]
    omega
  have e2 : dates.countP (fun x => decide (s ≤ x ∧ x ≤ s + ((dn - s - W).toNat : ℤ))) =
      dates.countP (fun x => decide (s ≤ x ∧ x ≤ dn - W)) := by
    refine List.countP_congr ?_
    intro x hx
    simp only [decide_eq_true_eq]
    omega
  rw [e1, e2]
  have hsplit := countP_Icc_split dates s (dn - W) dn (by omega) (by omega)
  omega

/-- The safety conditions of one series-point computation of
`calculate_metrics` at offset `i`: the end-of-day timestamp construction
(`with_ymd_and_hms(..., 23, 59, 59).unwrap()`) succeeds, the inner bounds
check of `Timeline::increment` always passes when the outer range check
does, and both `sum_in_window` calls only make in-bounds accesses with a
non-truncating subtraction. -/
def engineStepSafe (prs : List GitHubPR) (D W : ℤ) (now : Instant) (i : ℤ) : Prop :=
  (with_ymd_and_hms (civilFromDays (now.day - i)).1 (civilFromDays (now.day - i)).2.1
      (civilFromDays (now.day - i)).2.2 END_OF_DAY_HOUR END_OF_DAY_MIN END_OF_DAY_SEC =
    some ⟨(civilFromDays (now.day - i)).1, (civilFromDays (now.day - i)).2.1,
      (civilFromDays (now.day - i)).2.2, END_OF_DAY_HOUR, END_OF_DAY_MIN,
      END_OF_DAY_SEC⟩) ∧
  (∀ x : ℤ, now.day - D - W ≤ x → x ≤ now.day →
    (x - (now.day - D - W)).toNat <
      ((populate prs (Timeline.new (now.day - D - W) now.day)
        (Timeline.new (now.day - D - W) now.day)).1).counts.length) ∧
  sum_in_window_safe ((populate prs (Timeline.new (now.day - D - W) now.day)
    (Timeline.new (now.day - D - W) now.day)).1.into_prefix_sums) (now.day - i) W ∧
  sum_in_window_safe ((populate prs (Timeline.new (now.day - D - W) now.day)
    (Timeline.new (now.day - D - W) now.day)).2.into_prefix_sums) (now.day - i) W

/-- C6: `calculate_metrics` is total on non-negative `D`, `W`: at every
produced offset `0 ≤ i ≤ D` the end-of-day `with_ymd_and_hms(…).unwrap()`
is reachable only in its success case, every internal array access stays
in bounds, and the subtraction of prefix sums never underflows
(`saturating_sub` never truncates). -/
theorem C6_engine_never_fails (prs : List GitHubPR) (D W : ℤ) (now : Instant)
    (hD : 0 ≤ D) (hW : 0 ≤ W) (i : ℤ) (h0i : 0 ≤ i) (hiD : i ≤ D) :
    engineStepSafe prs D W now i := by
  have hv := civilFromDays_valid (now.day - i)
  have hse : now.day - D - W ≤ now.day := by omega
  have hnf := new_fields (now.day - D - W) now.day hse
  refine ⟨?_, ?_, ?_, ?_⟩
  · unfold with_ymd_and_hms END_OF_DAY_HOUR END_OF_DAY_MIN END_OF_DAY_SEC
    rw [if_pos]
    refine ⟨hv, by norm_num, by norm_num, by norm_num, by norm_num, by norm_num, by norm_num⟩
  · intro x hx1 hx2
    rw [populate_fst]
    have hff := foldl_increment_fields (openedDays prs)
      (Timeline.new (now.day - D - W) now.day)
    omega
  · rw [populate_fst]
    exact window_access_safe (openedDays prs) (now.day - D - W) now.day (now.day - i) W
      hW (by omega) (by omega)
  · rw [populate_snd]
    exact window_access_safe (mergedDays prs) (now.day - D - W) now.day (now.day - i) W
      hW (by omega) (by omega)

theorem C6_witness :
    (0 : ℤ) ≤ 0 ∧ (0 : ℤ) ≤ 30 ∧ (0 : ℤ) ≤ 0 ∧
    engineStepSafe [exPR1] 0 30 exNow 0 :=
  ⟨le_refl 0, by norm_num, le_refl 0,
   C6_engine_never_fails [exPR1] 0 30 exNow (le_refl 0) (by norm_num) 0 (le_refl 0)
     (le_refl 0)⟩

/-! ## Cache, eviction listener, refresh worker (`cache.rs`) -/

/-- `CacheKey` from `cache.rs`. -/
structure CacheKey where
  owner : String
  repo : String
deriving DecidableEq

/-- `moka::notification::RemovalCause`: why an entry left the cache. -/
inductive RemovalCause
  | Expired
  | Explicit
  | Replaced
  | Size
deriving DecidableEq

/-- `CACHE_TTL` from `cache.rs` (24 hours), in seconds. -/
def CACHE_TTL : ℤ := 86400

/-- The eviction listener closure of `MetricsCache::new`: on a removal
event it sends the key on the refresh channel iff the cause is `Expired`.
`tx` is the channel's accumulated contents; a send appends. -/
def eviction_listener (tx : List CacheKey) (key : CacheKey)
    (cause : RemovalCause) : List CacheKey :=
  if cause = RemovalCause.Expired then tx ++ [key] else tx

/-- Refresh-channel contents after the listener has handled a sequence of
removal events. -/
def processRemovalEvents (events : List (CacheKey × RemovalCause)) : List CacheKey :=
  events.foldl (fun tx2 ev => eviction_listener tx2 ev.1 ev.2) []

/-- Modelled from the spec: the TTL Cache Store state.  The store itself
is `moka::future::Cache`, an external library; per spec §3/§4.1 an entry
is a value plus its expiry instant (`expiresAt = insertedAt + TTL`). -/
def CacheStore : Type := CacheKey → Option (RepoMetricsResponse × ℤ)

/-- Modelled from the spec: `insert(k, v)` at time `t` stores `v` with the
fresh expiry `t + CACHE_TTL`, replacing any prior entry wholesale
(spec §4.1). -/
def CacheStore.insert (c : CacheStore) (k : CacheKey) (v : RepoMetricsResponse)
    (t : ℤ) : CacheStore :=
  fun k2 => if k2 = k then some (v, t + CACHE_TTL) else c k2

/-- Modelled from the spec: `get(k)` at time `t` returns the stored value
while `t` is before its expiry, and absent otherwise (spec §4.1, §8). -/
def CacheStore.get (c : CacheStore) (k : CacheKey) (t : ℤ) :
    Option RepoMetricsResponse :=
  match c k with
  | some (v, e2) => if t < e2 then some v else none
  | none => none

/-- One iteration of the refresh task loop of `MetricsCache::new`: on
`Ok(metrics)` it inserts; on `Err` it only logs, leaving the store as it
was.  The error payload is the `(StatusCode, String)` pair of the source. -/
def refreshStep (store : CacheStore) (key : CacheKey) (t : ℤ)
    (result : Except (ℕ × String) RepoMetricsResponse) : CacheStore :=
  match result with
  | Except.ok metrics => CacheStore.insert store key metrics t
  | Except.error _ => store

theorem processRemoval_aux (events : List (CacheKey × RemovalCause)) : ∀ tx,
    events.foldl (fun tx2 ev => eviction_listener tx2 ev.1 ev.2) tx =
      tx ++ (events.filter (fun ev => decide (ev.2 = RemovalCause.Expired))).map
        Prod.fst := by
  induction events with
  | nil => intro tx; simp
  | cons ev rest ih =>
    intro tx
    simp only [List.foldl_cons]
    rw [ih]
    unfold eviction_listener
    by_cases hc : ev.2 = RemovalCause.Expired
    · rw [if_pos hc]
      simp [List.filter_cons, hc]
    · rw [if_neg hc]
      simp [List.filter_cons, hc]

/-- C7: a key is pushed onto the expiry-notification (refresh) channel iff
the removal cause is TTL expiry: the channel holds exactly the keys of the
`Expired` events, in order; in particular a sequence of capacity-driven
evictions (cause `Size`) emits nothing, so it never triggers a refresh. -/
theorem C7_notify_iff_ttl_expiry (events : List (CacheKey × RemovalCause)) :
    processRemovalEvents events =
      (events.filter (fun ev => decide (ev.2 = RemovalCause.Expired))).map Prod.fst ∧
    ((∀ ev ∈ events, ev.2 = RemovalCause.Size) → processRemovalEvents events = []) := by
  constructor
  · unfold processRemovalEvents
    rw [processRemoval_aux]
    rfl
  · intro hall
    unfold processRemovalEvents
    rw [processRemoval_aux]
    have hf : events.filter (fun ev => decide (ev.2 = RemovalCause.Expired)) = [] := by
      rw [List.filter_eq_nil_iff]
      intro ev hev
      simp only [decide_eq_true_eq]
      rw [hall ev hev]
      intro hc
      cases hc
    rw [hf]
    rfl

/-- A key, for concrete cache scenarios. -/
def exKey1 : CacheKey := ⟨"facebook", "react"⟩

/-- Another key, for concrete cache scenarios. -/
def exKey2 : CacheKey := ⟨"rust-lang", "rust"⟩

theorem C7_witness :
    (∀ ev ∈ [(exKey1, RemovalCause.Size), (exKey2, RemovalCause.Size)],
      ev.2 = RemovalCause.Size) ∧
    processRemovalEvents [(exKey1, RemovalCause.Size), (exKey2, RemovalCause.Size)] = [] :=
  ⟨by decide,
   (C7_notify_iff_ttl_expiry [(exKey1, RemovalCause.Size), (exKey2, RemovalCause.Size)]).2
     (by decide)⟩

/-- C8: if the fetch-and-compute step fails, the refresh worker does not
insert anything — the cache state is observationally unchanged (a key that
was absent stays absent) — and it inserts exactly the computed snapshot
when the step succeeds. -/
theorem C8_refresh_inserts_iff_success (store : CacheStore) (key k2 : CacheKey)
    (t t2 : ℤ) (e : ℕ × String) (m : RepoMetricsResponse) :
    (refreshStep store key t (Except.error e) = store) ∧
    (CacheStore.get (refreshStep store key t (Except.error e)) k2 t2 =
      CacheStore.get store k2 t2) ∧
    (refreshStep store key t (Except.ok m) = CacheStore.insert store key m t) :=
  ⟨rfl, rfl, rfl⟩

/-- C9: `insert(k, v)` at time `t` followed by `get(k)` at any time before
the TTL elapses (`t2 < t + CACHE_TTL`), with no intervening operation on
`k`, returns `v`. -/
theorem C9_insert_then_get (store : CacheStore) (k : CacheKey)
    (v : RepoMetricsResponse) (t t2 : ℤ) (h : t2 < t + CACHE_TTL) :
    CacheStore.get (CacheStore.insert store k v t) k t2 = some v := by
  have hk : (CacheStore.insert store k v t) k = some (v, t + CACHE_TTL) := by
    unfold CacheStore.insert
    rw [if_pos rfl]
  unfold CacheStore.get
  rw [hk]
  show (if t2 < t + CACHE_TTL then some v else none) = some v
  rw [if_pos h]

/-- The empty cache store. -/
def exEmptyStore : CacheStore := fun _ => none

/-- A concrete snapshot value. -/
def exSnapshot : RepoMetricsResponse := ⟨⟨0, 0, 0, 0, false⟩, []⟩

theorem C9_witness :
    (5 : ℤ) < 0 + CACHE_TTL ∧
    CacheStore.get (CacheStore.insert exEmptyStore exKey1 exSnapshot 0) exKey1 5 =
      some exSnapshot :=
  ⟨by norm_num [CACHE_TTL],
   C9_insert_then_get exEmptyStore exKey1 exSnapshot 0 5 (by norm_num [CACHE_TTL])⟩
